import Mathlib

/-!
Verification of the Kata pod template engine
(`src/kubernetes/templates/template_engine.py`).

Text is modelled as `List Char`.  The Python regex token for a word
character is modelled for the ASCII range (the scanning algorithm treats
the character class uniformly).  Recursions that Python performs by
scanning a string left to right are modelled with an explicit fuel equal
to the length of the scanned string, so that every definition reduces in
the kernel; `*F` is the fueled worker and the wrapper fixes the fuel.
-/

namespace TemplateEngine

/-- Character class of the regex word token used in the placeholder
pattern: letters, digits or underscore. -/
def isWordChar (c : Char) : Bool :=
  c.isAlpha || c.isDigit || c == '_'

/-- Test `startsWith p s` holds when `p` is a prefix of `s` (the anchoring test
performed at each scan position). -/
def startsWith : List Char → List Char → Bool
  | [], _ => true
  | _ :: _, [] => false
  | p :: ps, c :: cs => p == c && startsWith ps cs

/-- Fueled model of Python `str.replace pat rep`: every non-overlapping
occurrence of `pat` is replaced left to right; the replacement text is
spliced in and never rescanned within the same pass. -/
def replaceAllF (pat rep : List Char) : Nat → List Char → List Char
  | _, [] => []
  | 0, c :: cs => c :: cs
  | fuel + 1, c :: cs =>
    if startsWith pat (c :: cs) && !pat.isEmpty then
      rep ++ replaceAllF pat rep fuel ((c :: cs).drop pat.length)
    else
      c :: replaceAllF pat rep fuel cs

/-- Python `s.replace(pat, rep)` (for the nonempty patterns the engine uses). -/
def replaceAll (pat rep s : List Char) : List Char :=
  replaceAllF pat rep s.length s

/-- Fueled model of `re.findall(r"\x7b\x7b(\w+)\x7d\x7d", template)`: scan left
to right; at a position starting with two opening braces take the maximal
word-character run; if it is nonempty and followed by two closing braces,
record it and resume after the match, otherwise advance one position. -/
def findPlaceholdersF : Nat → List Char → List (List Char)
  | _, [] => []
  | 0, _ :: _ => []
  | fuel + 1, c1 :: cs1 =>
    match cs1 with
    | [] => []
    | c2 :: cs2 =>
      if c1 == '{' && c2 == '{' then
        if (cs2.takeWhile isWordChar).isEmpty then findPlaceholdersF fuel cs1
        else if startsWith [ '}', '}' ] (cs2.dropWhile isWordChar) then
          cs2.takeWhile isWordChar ::
            findPlaceholdersF fuel ((cs2.dropWhile isWordChar).drop 2)
        else findPlaceholdersF fuel cs1
      else findPlaceholdersF fuel cs1

/-- All placeholder names found in a template, in scan order, duplicates kept. -/
def findPlaceholders (s : List Char) : List (List Char) :=
  findPlaceholdersF s.length s

/-- The literal placeholder token for a key, as built by
`f"\x7b\x7b\x7b\x7b\x7b{key}\x7d\x7d\x7d\x7d\x7d"`-style formatting in `render`:
two opening braces, the key, two closing braces. -/
def placeholderOf (k : List Char) : List Char :=
  '{' :: '{' :: (k ++ [ '}', '}' ])

/-- A variable mapping: association list from key to value, in the
iteration order of the Python dict. -/
abbrev VarMap := List (List Char × List Char)

/-- The key set of a variable mapping. -/
def varKeys (vars : VarMap) : List (List Char) :=
  vars.map Prod.fst

/-- The substitution loop of `render`: for every key/value pair in mapping
order, replace every occurrence of the key's placeholder token in the whole
current result. -/
def substitute (t : List Char) (vars : VarMap) : List Char :=
  vars.foldl (fun acc kv => replaceAll (placeholderOf kv.1) kv.2 acc) t

/-- The set difference `matches - var_dict.keys()` computed by `render`
(deduplicated placeholder names that have no entry in the mapping). -/
def missingVars (t : List Char) (vars : VarMap) : List (List Char) :=
  ((findPlaceholders t).dedup).filter (fun n => !(decide (n ∈ varKeys vars)))

/-- Model of `KataPodTemplateEngine.render` given the already-obtained template
text: raise `RenderingError` naming the whole missing set when it is
nonempty, otherwise substitute every key. -/
def render (t : List Char) (vars : VarMap) : Except (List (List Char)) (List Char) :=
  if missingVars t vars = [] then Except.ok (substitute t vars)
  else Except.error (missingVars t vars)

/-- Decidable equality of render results, used to evaluate the model on
concrete inputs. -/
instance instDecEqExcept {e a : Type} [DecidableEq e] [DecidableEq a] :
    DecidableEq (Except e a)
  | Except.ok x, Except.ok y =>
    if h : x = y then isTrue (by rw [h]) else isFalse (fun hh => h (Except.ok.inj hh))
  | Except.ok _, Except.error _ => isFalse (fun hh => Except.noConfusion hh)
  | Except.error _, Except.ok _ => isFalse (fun hh => Except.noConfusion hh)
  | Except.error x, Except.error y =>
    if h : x = y then isTrue (by rw [h]) else isFalse (fun hh => h (Except.error.inj hh))

/-! ## Parsed YAML documents and `validate_yaml`

The YAML parser is an external collaborator; `validate_yaml` is modelled
on the parser's result: either a syntax diagnostic or a generic parsed
value.  String-keyed mappings cover every document the engine's checks
touch. -/

/-- A generic parsed YAML value as handed back by the parser. -/
inductive YVal where
  | s (v : List Char)
  | i (v : Int)
  | b (v : Bool)
  | null
  | seq (items : List YVal)
  | map (entries : List (List Char × YVal))

/-- Python `dict.get` on a parsed mapping (first entry with the key wins;
a parsed YAML mapping has unique keys). -/
def yLookup (k : List Char) : List (List Char × YVal) → Option YVal
  | [] => none
  | kv :: rest => if kv.1 == k then some kv.2 else yLookup k rest

/-- Python `value == "lit"` for a `dict.get` result: true exactly when the
value is present and is that string (comparison with a non-string is false). -/
def isStrVal (v : Option YVal) (lit : List Char) : Bool :=
  match v with
  | some (.s t) => t == lit
  | _ => false

/-- Whether a parsed value is a mapping (a Python dict, the only values
with a usable `.get` attribute). -/
def isMapVal : YVal → Bool
  | .map _ => true
  | _ => false

/-- The ways `validate_yaml` can fail.  `attributeError` models the
uncaught Python `AttributeError` raised by `spec.get(...)` when the value
of `spec` is not a mapping — it is not a `ValidationError`. -/
inductive VErr where
  | invalidSyntax (diag : List Char)
  | notMapping
  | missingField (f : List Char)
  | wrongKind (got : Option YVal)
  | invalidRuntime
  | attributeError

def fApiVersion : List Char := "apiVersion".toList

def fKind : List Char := "kind".toList

def fMetadata : List Char := "metadata".toList

def fSpec : List Char := "spec".toList

def fRuntimeClassName : List Char := "runtimeClassName".toList

def podLit : List Char := "Pod".toList

def kataLit : List Char := "kata".toList

/-- The required top-level fields, in the order the source loop checks them. -/
def requiredFields : List (List Char) := [fApiVersion, fKind, fMetadata, fSpec]

/-- The structural checks of `validate_yaml` applied to the parsed value:
top-level mapping, the four required fields (first missing one reported),
`kind == "Pod"`, then `spec.runtimeClassName == "kata"` where `spec` is
read with `parsed.get("spec", \x7b\x7d)`. -/
def validateParsed (parsed : YVal) : Except VErr YVal :=
  match parsed with
  | .map entries =>
    match requiredFields.find? (fun f => (yLookup f entries).isNone) with
    | some f => Except.error (.missingField f)
    | none =>
      if isStrVal (yLookup fKind entries) podLit then
        match yLookup fSpec entries with
        | some (.map specEntries) =>
          if isStrVal (yLookup fRuntimeClassName specEntries) kataLit then
            Except.ok parsed
          else Except.error .invalidRuntime
        | some _ => Except.error .attributeError
        | none => Except.error .invalidRuntime
      else Except.error (.wrongKind (yLookup fKind entries))
  | _ => Except.error .notMapping

/-- Model of `KataPodTemplateEngine.validate_yaml`, taking the outcome of the
external YAML parse: a parse failure becomes the `InvalidSyntax` error
carrying the parser diagnostic, a parsed value goes through the checks. -/
def validate_yaml (parseResult : Except (List Char) YVal) : Except VErr YVal :=
  match parseResult with
  | Except.error d => Except.error (.invalidSyntax d)
  | Except.ok v => validateParsed v

/-! ## Engine state, template loading and `save_rendered` -/

/-- The mutable state of a `KataPodTemplateEngine`: the lazily populated
template cache (`_template_content`). -/
structure Engine where
  templateContent : Option (List Char)
  deriving DecidableEq

/-- Errors raised by the stateful `render` path. -/
inductive RErr where
  | notFound
  | missingVariables (names : List (List Char))
  deriving DecidableEq

/-- Model of `_load_template`: fails with `FileNotFoundError` when the source does
not exist, otherwise stores the text in the cache and returns it.  The
template source is modelled as `Option (List Char)` (`none` = missing). -/
def loadTemplate (source : Option (List Char)) : Except RErr (Engine × List Char) :=
  match source with
  | none => Except.error .notFound
  | some t => Except.ok (⟨some t⟩, t)

/-- The cache read `self._template_content or self._load_template()`:
Python `or` evaluates the right operand when the cached string is falsy,
which is the case both for `None` and for the empty string. -/
def getTemplate (source : Option (List Char)) (e : Engine) : Except RErr (Engine × List Char) :=
  match e.templateContent with
  | some t => if t = [] then loadTemplate source else Except.ok (e, t)
  | none => loadTemplate source

/-- Model of `KataPodTemplateEngine.render` including its cache effect: the
returned engine is the state after the call (unchanged when an exception
is raised before any load completes). -/
def renderSt (source : Option (List Char)) (e : Engine) (vars : VarMap) :
    Engine × Except RErr (List Char) :=
  match getTemplate source e with
  | Except.error err => (e, Except.error err)
  | Except.ok (e2, t) =>
    match render t vars with
    | Except.error ns => (e2, Except.error (.missingVariables ns))
    | Except.ok out => (e2, Except.ok out)

/-- A file system: association list mapping a path to its content, the
first entry for a path being current. -/
abbrev FileSys := List (List Char × List Char)

/-- Model of `Path.write_text`: (over)write the file at a path. -/
def fsWrite (fs : FileSys) (p c : List Char) : FileSys :=
  (p, c) :: fs

/-- Read the current content of a path. -/
def fsRead : FileSys → List Char → Option (List Char)
  | [], _ => none
  | kv :: rest, p => if kv.1 == p then some kv.2 else fsRead rest p

/-- Errors raised by `save_rendered`, keeping each propagated error's kind
and payload. -/
inductive SErr where
  | notFound
  | missingVariables (names : List (List Char))
  | validationFailed (v : VErr)

/-- The render-path exceptions propagate through `save_rendered` unchanged. -/
def liftRenderErr : RErr → SErr
  | .notFound => .notFound
  | .missingVariables ns => .missingVariables ns

/-- The validate-then-write stage of `save_rendered`: on validation
failure the file system is untouched; on success the rendered text is
written and the destination is returned. -/
def saveStep2 (e2 : Engine) (fs : FileSys) (outputPath rendered : List Char)
    (vr : Except VErr YVal) : Engine × FileSys × Except SErr (List Char) :=
  match vr with
  | Except.error v => (e2, fs, Except.error (.validationFailed v))
  | Except.ok _ => (e2, fsWrite fs outputPath rendered, Except.ok outputPath)

/-- The render stage of `save_rendered`: a render failure propagates with
no write; a rendered text is handed to validation. -/
def saveStep1 (parse : List Char → Except (List Char) YVal) (fs : FileSys)
    (outputPath : List Char) (rr : Engine × Except RErr (List Char)) :
    Engine × FileSys × Except SErr (List Char) :=
  match rr with
  | (e2, Except.error err) => (e2, fs, Except.error (liftRenderErr err))
  | (e2, Except.ok rendered) =>
    saveStep2 e2 fs outputPath rendered (validate_yaml (parse rendered))

/-- Model of `KataPodTemplateEngine.save_rendered`: render, validate (result
discarded), and only then write the rendered text to the output path.
`parse` is the external YAML parser used by validation. -/
def save_rendered (parse : List Char → Except (List Char) YVal)
    (source : Option (List Char)) (e : Engine) (fs : FileSys)
    (vars : VarMap) (outputPath : List Char) :
    Engine × FileSys × Except SErr (List Char) :=
  saveStep1 parse fs outputPath (renderSt source e vars)

/-! ## The free-standing formatting helpers -/

/-- The sentinel returned for an empty mapping: a space followed by the
empty-list YAML marker. -/
def emptySeqLit : List Char := " []".toList

/-- Model of the newline join applied to the accumulated lines. -/
def joinLines (lines : List (List Char)) : List Char :=
  List.intercalate [ '\n' ] lines

/-- The three lines appended per entry by `format_env_vars`: a blank
line, the `- name:` line and the quoted `value:` line. -/
def envEntryLines (kv : List Char × List Char) : List (List Char) :=
  [ [], "    - name: ".toList ++ kv.1,
    "      value: \"".toList ++ kv.2 ++ [ '\"' ] ]

/-- Model of `format_env_vars`. -/
def format_env_vars (env : List (List Char × List Char)) : List Char :=
  if env = [] then emptySeqLit
  else joinLines (env.foldl (fun acc kv => acc ++ envEntryLines kv) [])

/-- The three lines appended per entry by `format_volume_mounts`. -/
def mountEntryLines (kv : List Char × List Char) : List (List Char) :=
  [ [], "    - name: ".toList ++ kv.1,
    "      mountPath: ".toList ++ kv.2 ]

/-- Model of `format_volume_mounts`. -/
def format_volume_mounts (mounts : List (List Char × List Char)) : List Char :=
  if mounts = [] then emptySeqLit
  else joinLines (mounts.foldl (fun acc kv => acc ++ mountEntryLines kv) [])

/-- A volume property: a scalar (already in its string form) or a
one-level nested mapping. -/
inductive VolVal where
  | scalar (v : List Char)
  | nested (entries : List (List Char × List Char))
  deriving DecidableEq

/-- The lines produced for one volume property. -/
def volPropLines : List Char × VolVal → List (List Char)
  | (k, .scalar v) => [ "    ".toList ++ k ++ ": ".toList ++ v ]
  | (k, .nested entries) =>
    ("    ".toList ++ k ++ [ ':' ]) ::
      entries.map (fun p => "      ".toList ++ p.1 ++ ": ".toList ++ p.2)

/-- The lines appended per volume by `format_volumes`: a blank line, the
`- name:` line, then the property lines. -/
def volEntryLines (nv : List Char × List (List Char × VolVal)) : List (List Char) :=
  [] :: ("  - name: ".toList ++ nv.1) ::
    nv.2.foldl (fun acc kv => acc ++ volPropLines kv) []

/-- Model of `format_volumes`. -/
def format_volumes (volumes : List (List Char × List (List Char × VolVal))) : List Char :=
  if volumes = [] then emptySeqLit
  else joinLines (volumes.foldl
    (fun acc nv => acc ++ volEntryLines nv) [])

/-! ## Fuel elimination: the wrappers satisfy the natural step equations -/

lemma length_dropWhile_le (p : Char → Bool) (l : List Char) :
    (l.dropWhile p).length ≤ l.length := by
  induction l with
  | nil => simp
  | cons c cs ih =>
    rw [List.dropWhile_cons]
    split
    · exact Nat.le_trans ih (Nat.le_succ _)
    · simp

lemma replaceAllF_fuel (pat rep : List Char) :
    ∀ (f g : Nat) (s : List Char), s.length ≤ f → s.length ≤ g →
      replaceAllF pat rep f s = replaceAllF pat rep g s := by
  intro f
  induction f with
  | zero =>
    intro g s hf _
    have : s = [] := List.eq_nil_of_length_eq_zero (Nat.le_zero.mp hf)
    subst this
    cases g <;> rfl
  | succ f ih =>
    intro g s hf hg
    cases s with
    | nil => cases g <;> rfl
    | cons c cs =>
      cases g with
      | zero => exact absurd hg (by simp)
      | succ g =>
        show (if startsWith pat (c :: cs) && !pat.isEmpty then
            rep ++ replaceAllF pat rep f ((c :: cs).drop pat.length)
          else c :: replaceAllF pat rep f cs) = _
        rw [replaceAllF]
        split
        · next h =>
          have hne : pat ≠ [] := by
            rcases Bool.and_eq_true_iff.mp h with ⟨-, h2⟩
            simpa [List.isEmpty_iff] using h2
          have hlen : ((c :: cs).drop pat.length).length ≤ f := by
            rw [List.length_drop]
            have h1 : 1 ≤ pat.length := by
              cases pat with
              | nil => exact absurd rfl hne
              | cons _ _ => simp [Nat.succ_le_succ, Nat.zero_le]
            have := List.length_cons c cs
            omega
          have hlen' : ((c :: cs).drop pat.length).length ≤ g := by
            rw [List.length_drop]
            have h1 : 1 ≤ pat.length := by
              cases pat with
              | nil => exact absurd rfl hne
              | cons _ _ => simp [Nat.succ_le_succ, Nat.zero_le]
            have := List.length_cons c cs
            omega
          rw [ih g _ hlen hlen']
        · next h =>
          have : cs.length ≤ f := by simpa using Nat.succ_le_succ_iff.mp hf
          have hg' : cs.length ≤ g := by simpa using Nat.succ_le_succ_iff.mp hg
          rw [ih g cs this hg']

lemma replaceAll_nil (pat rep : List Char) : replaceAll pat rep [] = [] := rfl

/-- Step equation for `replaceAll`, free of fuel. -/
lemma replaceAll_cons (pat rep : List Char) (c : Char) (cs : List Char) :
    replaceAll pat rep (c :: cs) =
      if startsWith pat (c :: cs) && !pat.isEmpty then
        rep ++ replaceAll pat rep ((c :: cs).drop pat.length)
      else c :: replaceAll pat rep cs := by
  show replaceAllF pat rep (c :: cs).length (c :: cs) = _
  rw [List.length_cons, replaceAllF]
  split
  · next h =>
    have hne : pat ≠ [] := by
      rcases Bool.and_eq_true_iff.mp h with ⟨-, h2⟩
      simpa [List.isEmpty_iff] using h2
    congr 1
    apply replaceAllF_fuel
    · rw [List.length_drop]
      have h1 : 1 ≤ pat.length := by
        cases pat with
        | nil => exact absurd rfl hne
        | cons _ _ => simp [Nat.succ_le_succ, Nat.zero_le]
      have := List.length_cons c cs
      omega
    · exact Nat.le_refl _
  · congr 1

lemma findPlaceholdersF_fuel :
    ∀ (f g : Nat) (s : List Char), s.length ≤ f → s.length ≤ g →
      findPlaceholdersF f s = findPlaceholdersF g s := by
  intro f
  induction f with
  | zero =>
    intro g s hf _
    have : s = [] := List.eq_nil_of_length_eq_zero (Nat.le_zero.mp hf)
    subst this
    cases g <;> rfl
  | succ f ih =>
    intro g s hf hg
    cases s with
    | nil => cases g <;> rfl
    | cons c1 cs1 =>
      cases g with
      | zero => exact absurd hg (by simp)
      | succ g =>
        cases cs1 with
        | nil => rfl
        | cons c2 cs2 =>
          rw [findPlaceholdersF, findPlaceholdersF]
          have hlen1 : (c2 :: cs2).length ≤ f := by
            simpa using Nat.succ_le_succ_iff.mp hf
          have hlen1' : (c2 :: cs2).length ≤ g := by
            simpa using Nat.succ_le_succ_iff.mp hg
          have hdrop : ((cs2.dropWhile isWordChar).drop 2).length ≤ f := by
            have h1 := length_dropWhile_le isWordChar cs2
            have h2 := List.length_drop 2 (cs2.dropWhile isWordChar)
            simp at hf
            omega
          have hdrop' : ((cs2.dropWhile isWordChar).drop 2).length ≤ g := by
            have h1 := length_dropWhile_le isWordChar cs2
            have h2 := List.length_drop 2 (cs2.dropWhile isWordChar)
            simp at hg
            omega
          split
          · split
            · exact ih g _ hlen1 hlen1'
            · split
              · rw [ih g _ hdrop hdrop']
              · exact ih g _ hlen1 hlen1'
          · exact ih g _ hlen1 hlen1'

lemma findPlaceholders_nil : findPlaceholders [] = [] := rfl

lemma findPlaceholders_single (c : Char) : findPlaceholders [c] = [] := rfl

/-- Step equation for `findPlaceholders` on a two-character window, free
of fuel. -/
lemma findPlaceholders_cons₂ (c1 c2 : Char) (cs2 : List Char) :
    findPlaceholders (c1 :: c2 :: cs2) =
      if c1 == '{' && c2 == '{' then
        if (cs2.takeWhile isWordChar).isEmpty then findPlaceholders (c2 :: cs2)
        else if startsWith [ '}', '}' ] (cs2.dropWhile isWordChar) then
          cs2.takeWhile isWordChar ::
            findPlaceholders ((cs2.dropWhile isWordChar).drop 2)
        else findPlaceholders (c2 :: cs2)
      else findPlaceholders (c2 :: cs2) := by
  show findPlaceholdersF (c1 :: c2 :: cs2).length (c1 :: c2 :: cs2) = _
  rw [List.length_cons, findPlaceholdersF]
  have hlen1 : (c2 :: cs2).length ≤ (c2 :: cs2).length := Nat.le_refl _
  have hdrop : ((cs2.dropWhile isWordChar).drop 2).length ≤ (c2 :: cs2).length := by
    have h1 := length_dropWhile_le isWordChar cs2
    have h2 := List.length_drop 2 (cs2.dropWhile isWordChar)
    simp
    omega
  split
  · split
    · exact findPlaceholdersF_fuel _ _ _ hlen1 hlen1
    · split
      · rw [findPlaceholdersF_fuel _ _ _ hdrop (Nat.le_refl _)]
        rfl
      · exact findPlaceholdersF_fuel _ _ _ hlen1 hlen1
  · exact findPlaceholdersF_fuel _ _ _ hlen1 hlen1

/-! ## Facts about word characters and prefixes -/

lemma word_ne_lbrace {c : Char} (h : isWordChar c = true) : c ≠ '{' := by
  intro he
  subst he
  simp [isWordChar] at h

lemma word_ne_rbrace {c : Char} (h : isWordChar c = true) : c ≠ '}' := by
  intro he
  subst he
  simp [isWordChar] at h

lemma startsWith_refl_append (p b : List Char) : startsWith p (p ++ b) = true := by
  induction p with
  | nil => rfl
  | cons c cs ih => simp [startsWith, ih]

/-- A placeholder token of one word name never matches at the start of a
different word name's placeholder token, whatever follows. -/
lemma startsWith_names_ne (k k' b : List Char)
    (hk : ∀ c ∈ k, isWordChar c = true) (hk' : ∀ c ∈ k', isWordChar c = true)
    (hne : k ≠ k') :
    startsWith (k' ++ [ '}', '}' ]) (k ++ '}' :: '}' :: b) = false := by
  induction k' generalizing k with
  | nil =>
    cases k with
    | nil => exact absurd rfl hne
    | cons c k2 =>
      have : ('}' == c) = false :=
        beq_eq_false_iff_ne.mpr (Ne.symm (word_ne_rbrace (hk c (by simp))))
      simp [startsWith, this]
  | cons c' k2' ih =>
    cases k with
    | nil =>
      have : (c' == '}') = false :=
        beq_eq_false_iff_ne.mpr (word_ne_rbrace (hk' c' (by simp)))
      simp [startsWith, this]
    | cons c k2 =>
      by_cases hcc : c' = c
      · subst hcc
        have hrec := ih k2 (fun x hx => hk x (by simp [hx]))
          (fun x hx => hk' x (by simp [hx]))
          (by intro h; exact hne (by rw [h]))
        simp [startsWith, hrec]
      · simp [startsWith, hcc]

lemma startsWith_ph_ne (k k' b : List Char)
    (hk : ∀ c ∈ k, isWordChar c = true) (hk' : ∀ c ∈ k', isWordChar c = true)
    (hne : k ≠ k') :
    startsWith (placeholderOf k') (placeholderOf k ++ b) = false := by
  show startsWith ('{' :: '{' :: (k' ++ [ '}', '}' ]))
      (('{' :: '{' :: (k ++ [ '}', '}' ])) ++ b) = false
  have : (('{' :: '{' :: (k ++ [ '}', '}' ])) ++ b) =
      '{' :: '{' :: (k ++ '}' :: '}' :: b) := by simp
  rw [this]
  simp only [startsWith]
  rw [startsWith_names_ne k k' b hk hk' hne]
  simp

/-! ## How `replaceAll` acts on structured text -/

/-- A scan whose pattern starts with an opening brace passes over any
brace-free text unchanged. -/
lemma replaceAll_skip (pt rep : List Char) :
    ∀ (a b : List Char), '{' ∉ a →
      replaceAll ('{' :: pt) rep (a ++ b) = a ++ replaceAll ('{' :: pt) rep b := by
  intro a
  induction a with
  | nil => intro b _; rfl
  | cons c a' ih =>
    intro b hmem
    have hc : c ≠ '{' := fun h => hmem (by simp [h])
    have hsw : startsWith ('{' :: pt) (c :: (a' ++ b)) = false := by
      have : ('{' == c) = false := beq_eq_false_iff_ne.mpr (Ne.symm hc)
      simp [startsWith, this]
    rw [List.cons_append, replaceAll_cons, hsw]
    simp only [Bool.false_and, if_neg (by simp : ¬(false = true))]
    rw [ih b (fun h => hmem (by simp [h]))]
    rfl

/-- Replacing at an exact occurrence of the pattern. -/
lemma replaceAll_head_match (pat rep b : List Char) (hne : pat ≠ []) :
    replaceAll pat rep (pat ++ b) = rep ++ replaceAll pat rep b := by
  cases pat with
  | nil => exact absurd rfl hne
  | cons p ps =>
    rw [List.cons_append, replaceAll_cons]
    have h1 : startsWith (p :: ps) (p :: (ps ++ b)) = true := by
      have := startsWith_refl_append (p :: ps) b
      simpa using this
    have h2 : ((p :: ps).isEmpty) = false := rfl
    rw [h1, h2]
    have h3 : ((p :: (ps ++ b)).drop (p :: ps).length) = b := by
      rw [show (p :: (ps ++ b)) = ((p :: ps) ++ b) by simp, List.drop_left]
    rw [h3]
    simp

/-- A key's scan passes over another key's placeholder token unchanged. -/
lemma replaceAll_ph_other (k k' rep b : List Char)
    (hk : k ≠ [] ∧ ∀ c ∈ k, isWordChar c = true)
    (hk' : ∀ c ∈ k', isWordChar c = true)
    (hne : k ≠ k') :
    replaceAll (placeholderOf k') rep (placeholderOf k ++ b) =
      placeholderOf k ++ replaceAll (placeholderOf k') rep b := by
  obtain ⟨hknil, hkw⟩ := hk
  have hflat : placeholderOf k ++ b = '{' :: '{' :: (k ++ '}' :: '}' :: b) := by
    simp [placeholderOf]
  -- first position: the full foreign token does not match
  have h0 : startsWith (placeholderOf k') (placeholderOf k ++ b) = false :=
    startsWith_ph_ne k k' b hkw hk' hne
  rw [hflat] at h0 ⊢
  rw [replaceAll_cons]
  rw [show placeholderOf k' = '{' :: ('{' :: (k' ++ [ '}', '}' ])) from rfl] at h0 ⊢
  rw [h0]
  simp only [Bool.false_and, if_neg (by simp : ¬(false = true))]
  -- second position: pattern's second brace cannot match the head of the name
  have h1 : startsWith ('{' :: ('{' :: (k' ++ [ '}', '}' ])))
      ('{' :: (k ++ '}' :: '}' :: b)) = false := by
    cases k with
    | nil => exact absurd rfl hknil
    | cons c k2 =>
      have hc : ('{' == c) = false :=
        beq_eq_false_iff_ne.mpr (Ne.symm (word_ne_lbrace (hkw c (by simp))))
      simp [startsWith, hc]
  rw [replaceAll_cons, h1]
  simp only [Bool.false_and, if_neg (by simp : ¬(false = true))]
  -- the rest of the token is brace-free
  have h2 : '{' ∉ (k ++ [ '}', '}' ]) := by
    intro hmem
    rcases List.mem_append.mp hmem with h | h
    · exact word_ne_lbrace (hkw _ h) rfl
    · simp at h
  have h3 : (k ++ '}' :: '}' :: b) = (k ++ [ '}', '}' ]) ++ b := by simp
  rw [h3, replaceAll_skip _ _ _ _ h2]
  simp [placeholderOf]

/-! ## Segmented templates

A template whose brace characters all belong to well-formed placeholder
tokens decomposes into literal runs and placeholder segments; this is the
shape the spec's substitution invariants talk about. -/

/-- A template segment: a literal text run, or one placeholder token. -/
inductive Seg where
  | lit (s : List Char)
  | ph (n : List Char)
  deriving DecidableEq

/-- The raw text of a segmented template. -/
def flattenSegs : List Seg → List Char
  | [] => []
  | .lit s :: rest => s ++ flattenSegs rest
  | .ph n :: rest => placeholderOf n ++ flattenSegs rest

/-- The effect of one key's replacement pass on a segment. -/
def substSeg (k v : List Char) : Seg → Seg
  | .lit s => .lit s
  | .ph n => if n = k then .lit v else .ph n

/-- The effect of the whole substitution loop on a segment. -/
def applyVars (vars : VarMap) (sg : Seg) : Seg :=
  vars.foldl (fun acc kv => substSeg kv.1 kv.2 acc) sg

/-- First-match lookup in a variable mapping. -/
def lookupVar (n : List Char) : VarMap → Option (List Char)
  | [] => none
  | kv :: rest => if kv.1 = n then some kv.2 else lookupVar n rest

/-- The placeholder name of a segment, if any. -/
def segPhName : Seg → Option (List Char)
  | .ph n => some n
  | .lit _ => none

/-- A literal run that cannot interfere with placeholder tokens: it
contains no brace character. -/
def GoodLit (s : List Char) : Prop := '{' ∉ s ∧ '}' ∉ s

/-- A well-formed placeholder name: nonempty and all word characters. -/
def GoodName (n : List Char) : Prop := n ≠ [] ∧ ∀ c ∈ n, isWordChar c = true

/-- Well-formedness of one segment. -/
def GoodSeg : Seg → Prop
  | .lit s => GoodLit s
  | .ph n => GoodName n

/-- Well-formedness of a segmented template. -/
def GoodSegs (segs : List Seg) : Prop := ∀ sg ∈ segs, GoodSeg sg

/-- A variable mapping with well-formed keys and brace-free values. -/
def GoodVars (vars : VarMap) : Prop :=
  ∀ kv ∈ vars, GoodName kv.1 ∧ GoodLit kv.2

instance : DecidablePred GoodLit := fun s =>
  inferInstanceAs (Decidable (_ ∧ _))

instance : DecidablePred GoodName := fun n =>
  inferInstanceAs (Decidable (_ ∧ _))

instance : DecidablePred GoodSeg := fun sg =>
  match sg with
  | .lit s => inferInstanceAs (Decidable (GoodLit s))
  | .ph n => inferInstanceAs (Decidable (GoodName n))

instance : DecidablePred GoodSegs := fun segs =>
  inferInstanceAs (Decidable (∀ sg ∈ segs, GoodSeg sg))

instance : DecidablePred GoodVars := fun vars =>
  inferInstanceAs (Decidable (∀ kv ∈ vars, GoodName kv.1 ∧ GoodLit kv.2))

/-- One replacement pass over a well-formed segmented template rewrites
exactly the matching placeholder segments and nothing else. -/
lemma replaceAll_flattenSegs (k v : List Char) (hk : GoodName k) :
    ∀ (segs : List Seg), GoodSegs segs →
      replaceAll (placeholderOf k) v (flattenSegs segs) =
        flattenSegs (segs.map (substSeg k v)) := by
  intro segs
  induction segs with
  | nil => intro _; rfl
  | cons sg rest ih =>
    intro hgood
    have hsg : GoodSeg sg := hgood sg (by simp)
    have hrest : GoodSegs rest := fun x hx => hgood x (by simp [hx])
    cases sg with
    | lit s =>
      have hnol : '{' ∉ s := (hsg : GoodLit s).1
      show replaceAll (placeholderOf k) v (s ++ flattenSegs rest) = _
      rw [show placeholderOf k = '{' :: ('{' :: (k ++ [ '}', '}' ])) from rfl,
        replaceAll_skip _ _ _ _ hnol, ← show placeholderOf k = '{' :: ('{' :: (k ++ [ '}', '}' ])) from rfl,
        ih hrest]
      rfl
    | ph n =>
      by_cases hn : n = k
      · subst hn
        show replaceAll (placeholderOf n) v (placeholderOf n ++ flattenSegs rest) = _
        rw [replaceAll_head_match _ _ _ (by simp [placeholderOf]), ih hrest]
        simp [substSeg, flattenSegs]
      · show replaceAll (placeholderOf k) v (placeholderOf n ++ flattenSegs rest) = _
        have hng : GoodName n := hsg
        rw [replaceAll_ph_other n k v _ ⟨hng.1, hng.2⟩ hk.2 (fun h => hn h), ih hrest]
        simp [substSeg, hn, flattenSegs]

/-- Well-formedness survives one replacement pass. -/
lemma goodSegs_map_substSeg {segs : List Seg} {k v : List Char}
    (hs : GoodSegs segs) (hv : GoodLit v) :
    GoodSegs (segs.map (substSeg k v)) := by
  intro sg hsg
  rcases List.mem_map.mp hsg with ⟨sg0, h0, rfl⟩
  have := hs sg0 h0
  cases sg0 with
  | lit s => exact this
  | ph n =>
    by_cases hn : n = k
    · simpa [substSeg, hn] using hv
    · simpa [substSeg, hn] using this

/-- The full substitution loop over a well-formed segmented template acts
segmentwise. -/
lemma substitute_flattenSegs :
    ∀ (vars : VarMap) (segs : List Seg), GoodVars vars → GoodSegs segs →
      substitute (flattenSegs segs) vars =
        flattenSegs (segs.map (applyVars vars)) := by
  intro vars
  induction vars with
  | nil =>
    intro segs _ _
    show flattenSegs segs = flattenSegs (segs.map (applyVars []))
    have : segs.map (applyVars []) = segs := by
      apply List.map_id''
      intro sg
      rfl
    rw [this]
  | cons kv rest ih =>
    intro segs hv hs
    have hkv := hv kv (by simp)
    show substitute (replaceAll (placeholderOf kv.1) kv.2 (flattenSegs segs)) rest = _
    rw [replaceAll_flattenSegs kv.1 kv.2 hkv.1 segs hs]
    rw [ih _ (fun x hx => hv x (by simp [hx])) (goodSegs_map_substSeg hs hkv.2)]
    rw [List.map_map]
    rfl

/-- How the loop acts on a literal segment: not at all. -/
lemma applyVars_lit (vars : VarMap) (s : List Char) :
    applyVars vars (.lit s) = .lit s := by
  induction vars with
  | nil => rfl
  | cons kv rest ih =>
    show applyVars rest (substSeg kv.1 kv.2 (.lit s)) = _
    exact ih

/-- How the loop acts on a placeholder segment: by first-match lookup. -/
lemma applyVars_ph (vars : VarMap) (n : List Char) :
    applyVars vars (.ph n) =
      match lookupVar n vars with
      | some v => .lit v
      | none => .ph n := by
  induction vars with
  | nil => rfl
  | cons kv rest ih =>
    show applyVars rest (substSeg kv.1 kv.2 (.ph n)) = _
    by_cases h : n = kv.1
    · rw [show substSeg kv.1 kv.2 (.ph n) = .lit kv.2 by simp [substSeg, h]]
      rw [applyVars_lit]
      rw [show lookupVar n (kv :: rest) = some kv.2 by simp [lookupVar, h.symm]]
    · rw [show substSeg kv.1 kv.2 (.ph n) = .ph n by simp [substSeg, h]]
      rw [ih]
      have : lookupVar n (kv :: rest) = lookupVar n rest := by
        show (if kv.1 = n then some kv.2 else lookupVar n rest) = lookupVar n rest
        exact if_neg (fun hh => h hh.symm)
      rw [this]

/-- First-match lookup is invariant under permutation when the keys are
distinct. -/
lemma lookupVar_perm :
    ∀ {vars₁ vars₂ : VarMap}, vars₁.Perm vars₂ →
      (vars₁.map Prod.fst).Nodup → ∀ n, lookupVar n vars₁ = lookupVar n vars₂ := by
  intro vars₁ vars₂ hp
  induction hp with
  | nil => intro _ _; rfl
  | cons kv p ih =>
    intro hnd n
    rw [List.map_cons] at hnd
    have hnd' := (List.nodup_cons.mp hnd).2
    by_cases h : kv.1 = n
    · simp [lookupVar, h]
    · simp only [lookupVar, if_neg h]
      exact ih hnd' n
  | swap kv1 kv2 l =>
    intro hnd n
    have h12 : kv2.1 ≠ kv1.1 := by
      rw [List.map_cons, List.map_cons] at hnd
      have hh := (List.nodup_cons.mp hnd).1
      intro he
      exact hh (by simp [he])
    by_cases h1 : kv2.1 = n
    · have h2 : kv1.1 ≠ n := fun hh => h12 (h1.trans hh.symm)
      simp [lookupVar, h1, h2]
    · by_cases h2 : kv1.1 = n
      · simp [lookupVar, h1, h2]
      · simp [lookupVar, h1, h2]
  | trans p1 p2 ih1 ih2 =>
    intro hnd n
    have hnd2 := (p1.map Prod.fst).nodup hnd
    rw [ih1 hnd n, ih2 hnd2 n]

/-! ## How the placeholder scan acts on structured text -/

/-- The scan passes over brace-free text without reporting anything. -/
lemma findPlaceholders_skip :
    ∀ (a b : List Char), '{' ∉ a →
      findPlaceholders (a ++ b) = findPlaceholders b := by
  intro a
  induction a with
  | nil => intro b _; rfl
  | cons c a' ih =>
    intro b hmem
    have hc : c ≠ '{' := fun h => hmem (by simp [h])
    have hcb : (c == '{') = false := beq_eq_false_iff_ne.mpr hc
    cases a' with
    | nil =>
      cases b with
      | nil => rfl
      | cons c2 cs2 =>
        show findPlaceholders (c :: c2 :: cs2) = _
        rw [findPlaceholders_cons₂, hcb]
        simp
    | cons c' a'' =>
      show findPlaceholders (c :: c' :: (a'' ++ b)) = _
      rw [findPlaceholders_cons₂, hcb]
      simp only [Bool.false_and, if_neg (by simp : ¬(false = true))]
      exact ih b (fun h => hmem (by simp [h]))

lemma takeWhile_word_run (n x : List Char) (hn : ∀ c ∈ n, isWordChar c = true) :
    (n ++ '}' :: x).takeWhile isWordChar = n ∧
      (n ++ '}' :: x).dropWhile isWordChar = '}' :: x := by
  induction n with
  | nil =>
    constructor
    · rw [List.nil_append, List.takeWhile_cons]
      simp [isWordChar]
    · rw [List.nil_append, List.dropWhile_cons]
      simp [isWordChar]
  | cons c n' ih =>
    have hc : isWordChar c = true := hn c (by simp)
    have ihh := ih (fun y hy => hn y (by simp [hy]))
    constructor
    · rw [List.cons_append, List.takeWhile_cons, if_pos hc, ihh.1]
    · rw [List.cons_append, List.dropWhile_cons, if_pos hc, ihh.2]

/-- The scan reports a well-formed placeholder token and resumes after it. -/
lemma findPlaceholders_token (n b : List Char) (hn : GoodName n) :
    findPlaceholders (placeholderOf n ++ b) = n :: findPlaceholders b := by
  have hflat : placeholderOf n ++ b = '{' :: '{' :: (n ++ '}' :: '}' :: b) := by
    simp [placeholderOf]
  rw [hflat, findPlaceholders_cons₂]
  have htw := takeWhile_word_run n ('}' :: b) hn.2
  rw [htw.1, htw.2]
  have hne : n.isEmpty = false := by
    cases n with
    | nil => exact absurd rfl hn.1
    | cons _ _ => rfl
  rw [hne]
  have hsw : startsWith [ '}', '}' ] ('}' :: '}' :: b) = true := by
    simp [startsWith]
  rw [hsw]
  simp

/-- Brace-free text contains no placeholder. -/
lemma findPlaceholders_no_lbrace (s : List Char) (h : '{' ∉ s) :
    findPlaceholders s = [] := by
  have := findPlaceholders_skip s [] h
  simpa using this

/-- On a well-formed segmented template the scan reports exactly the
placeholder segments, in order. -/
lemma findPlaceholders_flattenSegs :
    ∀ (segs : List Seg), GoodSegs segs →
      findPlaceholders (flattenSegs segs) = segs.filterMap segPhName := by
  intro segs
  induction segs with
  | nil => intro _; rfl
  | cons sg rest ih =>
    intro hgood
    have hsg : GoodSeg sg := hgood sg (by simp)
    have hrest : GoodSegs rest := fun x hx => hgood x (by simp [hx])
    cases sg with
    | lit s =>
      show findPlaceholders (s ++ flattenSegs rest) = _
      rw [findPlaceholders_skip s _ (hsg : GoodLit s).1, ih hrest]
      rfl
    | ph n =>
      show findPlaceholders (placeholderOf n ++ flattenSegs rest) = _
      rw [findPlaceholders_token n _ hsg, ih hrest]
      rfl

/-- The flattening of brace-free literal segments is brace-free. -/
lemma no_lbrace_flattenSegs :
    ∀ (segs : List Seg), (∀ sg ∈ segs, ∃ s, sg = .lit s ∧ '{' ∉ s) →
      '{' ∉ flattenSegs segs := by
  intro segs
  induction segs with
  | nil => intro _; simp [flattenSegs]
  | cons sg rest ih =>
    intro h
    rcases h sg (by simp) with ⟨s, rfl, hs⟩
    show '{' ∉ s ++ flattenSegs rest
    intro hmem
    rcases List.mem_append.mp hmem with hm | hm
    · exact hs hm
    · exact ih (fun x hx => h x (by simp [hx])) hm

/-- Membership of a key implies a successful first-match lookup. -/
lemma lookupVar_isSome_of_mem (n : List Char) :
    ∀ (vars : VarMap), n ∈ varKeys vars → ∃ v, lookupVar n vars = some v := by
  intro vars
  induction vars with
  | nil => intro h; simp [varKeys] at h
  | cons kv rest ih =>
    intro h
    by_cases hh : kv.1 = n
    · exact ⟨kv.2, by simp [lookupVar, hh]⟩
    · rw [show varKeys (kv :: rest) = kv.1 :: varKeys rest from rfl] at h
      rcases List.mem_cons.mp h with h1 | h1
      · exact absurd h1.symm hh
      · rcases ih h1 with ⟨v, hv⟩
        exact ⟨v, by simp [lookupVar, hh, hv]⟩

/-- A found value belongs to the mapping. -/
lemma lookupVar_mem (n v : List Char) :
    ∀ (vars : VarMap), lookupVar n vars = some v → (n, v) ∈ vars ∨
      ∃ kv ∈ vars, kv.1 = n ∧ kv.2 = v := by
  intro vars
  induction vars with
  | nil => intro h; simp [lookupVar] at h
  | cons kv rest ih =>
    intro h
    by_cases hh : kv.1 = n
    · right
      refine ⟨kv, by simp, hh, ?_⟩
      rw [lookupVar, if_pos hh] at h
      exact Option.some.inj h
    · rw [lookupVar, if_neg hh] at h
      rcases ih h with h1 | ⟨kv2, hm, he⟩
      · exact Or.inl (by simp [h1])
      · exact Or.inr ⟨kv2, by simp [hm], he⟩

/-! ## Helper lemmas about the stateful render, validation and formatters -/

/-- With a nonempty cache, `render` serves the cached text: no load, no
state change, whatever the source holds. -/
lemma renderSt_cached (source : Option (List Char)) (e : Engine) (vars : VarMap)
    (t : List Char) (hc : e.templateContent = some t) (hne : t ≠ []) :
    renderSt source e vars =
      (e, match render t vars with
          | Except.ok out => Except.ok out
          | Except.error ns => Except.error (RErr.missingVariables ns)) := by
  have hget : getTemplate source e = Except.ok (e, t) := by
    simp only [getTemplate]
    rw [hc]
    simp [hne]
  simp only [renderSt]
  rw [hget]
  show (match render t vars with
    | Except.error ns => (e, Except.error (RErr.missingVariables ns))
    | Except.ok out => (e, Except.ok out)) = _
  cases h : render t vars <;> rfl

lemma find?_requiredFields (entries : List (List Char × YVal))
    (h1 : (yLookup fApiVersion entries).isSome = true)
    (h2 : (yLookup fKind entries).isSome = true)
    (h3 : (yLookup fMetadata entries).isSome = true)
    (h4 : (yLookup fSpec entries).isSome = true) :
    requiredFields.find? (fun f => (yLookup f entries).isNone) = none := by
  have e1 : (yLookup fApiVersion entries).isNone = false := by
    rcases Option.isSome_iff_exists.mp h1 with ⟨a, ha⟩
    rw [ha]
    rfl
  have e2 : (yLookup fKind entries).isNone = false := by
    rcases Option.isSome_iff_exists.mp h2 with ⟨a, ha⟩
    rw [ha]
    rfl
  have e3 : (yLookup fMetadata entries).isNone = false := by
    rcases Option.isSome_iff_exists.mp h3 with ⟨a, ha⟩
    rw [ha]
    rfl
  have e4 : (yLookup fSpec entries).isNone = false := by
    rcases Option.isSome_iff_exists.mp h4 with ⟨a, ha⟩
    rw [ha]
    rfl
  simp [requiredFields, List.find?_cons, e1, e2, e3, e4]

/-- The body of `validateParsed` once the required-field loop has passed. -/
lemma validateParsed_map_reduce (entries : List (List Char × YVal))
    (hfind : requiredFields.find? (fun f => (yLookup f entries).isNone) = none) :
    validateParsed (YVal.map entries) =
      if isStrVal (yLookup fKind entries) podLit then
        match yLookup fSpec entries with
        | some (.map specEntries) =>
          if isStrVal (yLookup fRuntimeClassName specEntries) kataLit then
            Except.ok (YVal.map entries)
          else Except.error .invalidRuntime
        | some _ => Except.error .attributeError
        | none => Except.error .invalidRuntime
      else Except.error (.wrongKind (yLookup fKind entries)) := by
  simp only [validateParsed]
  rw [hfind]

/-- Only a parse failure can surface as the syntax error. -/
lemma validateParsed_ne_invalidSyntax (v : YVal) (d : List Char) :
    validateParsed v ≠ Except.error (VErr.invalidSyntax d) := by
  cases v with
  | map entries =>
    simp only [validateParsed]
    split
    · simp
    · split
      · split
        · split
          · simp
          · simp
        · simp
        · simp
      · simp
  | s w => simp [validateParsed]
  | i w => simp [validateParsed]
  | b w => simp [validateParsed]
  | null => simp [validateParsed]
  | seq w => simp [validateParsed]

/-- Accumulating appends in a fold is concatenation of the pieces. -/
lemma foldl_append_eq_flatMap {α β : Type} (f : α → List β) :
    ∀ (l : List α) (init : List β),
      l.foldl (fun acc x => acc ++ f x) init = init ++ l.flatMap f := by
  intro l
  induction l with
  | nil => intro init; simp
  | cons x xs ih =>
    intro init
    show xs.foldl (fun acc y => acc ++ f y) (init ++ f x) = _
    rw [ih, List.flatMap_cons, List.append_assoc]

/-! ## Concrete inputs used by witnesses and counterexamples -/

def aKey : List Char := "A".toList

def bKey : List Char := "B".toList

def xVal : List Char := "x".toList

def yVal : List Char := "y".toList

def c1t : List Char := placeholderOf aKey ++ placeholderOf bKey

def c1vars : VarMap := [ (aKey, xVal) ]

def c2t : List Char := placeholderOf aKey

def c2vars1 : VarMap := [ (aKey, placeholderOf bKey), (bKey, xVal) ]

def c2vars2 : VarMap := [ (bKey, xVal), (aKey, placeholderOf bKey) ]

def c2wsegs : List Seg := [ Seg.lit ("pod: ".toList), Seg.ph aKey, Seg.ph bKey ]

def c2wvars1 : VarMap := [ (aKey, xVal), (bKey, yVal) ]

def c2wvars2 : VarMap := [ (bKey, yVal), (aKey, xVal) ]

def srcA : List Char := "a".toList

def srcB : List Char := "b".toList

/-- An engine whose cache holds the empty string. -/
def engEmpty : Engine := ⟨some []⟩

/-- An engine whose cache holds the one-character template `a`. -/
def engA : Engine := ⟨some srcA⟩

/-- An engine whose cache holds a template with two placeholders. -/
def engC1 : Engine := ⟨some c1t⟩

/-- An engine whose cache holds the placeholder of key `B`. -/
def engB : Engine := ⟨some (placeholderOf bKey)⟩

/-! ## Claims -/

/-- C1: for every template text with placeholder set P (the names found by
the scan) and every variable mapping with key set K, `render` succeeds iff
P ⊆ K, and a failure names exactly the set P \ K — never a first-found
subset; unreferenced keys never cause a failure. -/
theorem c1_render_missing_complete (t : List Char) (vars : VarMap) :
    ((render t vars).isOk = true ↔ ∀ n ∈ findPlaceholders t, n ∈ varKeys vars)
    ∧ (∀ e, render t vars = Except.error e →
        ∀ n, n ∈ e ↔ (n ∈ findPlaceholders t ∧ n ∉ varKeys vars)) := by
  constructor
  · by_cases hm : missingVars t vars = []
    · rw [render, if_pos hm]
      constructor
      · intro _ n hn
        by_contra hmem
        have : n ∈ missingVars t vars := by
          rw [missingVars]
          refine List.mem_filter.mpr ⟨List.mem_dedup.mpr hn, ?_⟩
          simp [hmem]
        rw [hm] at this
        simp at this
      · intro _
        rfl
    · rw [render, if_neg hm]
      constructor
      · intro hok
        exact absurd hok (by simp [Except.isOk, Except.toBool])
      · intro hall
        exfalso
        apply hm
        rw [missingVars, List.filter_eq_nil_iff]
        intro a ha
        have : a ∈ findPlaceholders t := List.mem_dedup.mp ha
        simp [hall a this]
  · intro e he n
    by_cases hm : missingVars t vars = []
    · rw [render, if_pos hm] at he
      exact absurd he (by simp)
    · rw [render, if_neg hm] at he
      have he' : e = missingVars t vars := (Except.error.inj he).symm
      subst he'
      rw [missingVars]
      constructor
      · intro hn
        have hmf := List.mem_filter.mp hn
        refine ⟨List.mem_dedup.mp hmf.1, ?_⟩
        simpa using hmf.2
      · rintro ⟨h1, h2⟩
        exact List.mem_filter.mpr ⟨List.mem_dedup.mpr h1, by simpa using h2⟩

/-- C1 witness: on the template with placeholders A and B and a mapping
supplying only A, the failure set contains B, which is a placeholder of
the template absent from the mapping. -/
theorem c1_witness :
    bKey ∈ findPlaceholders c1t ∧ bKey ∉ varKeys c1vars :=
  ((c1_render_missing_complete c1t c1vars).2 [ bKey ] (by decide) bKey).mp (by decide)

/-- C2 counterexample: the claim that a substituted value is never matched
by a later key's replacement, so that output is order-independent, fails:
on the template consisting of the placeholder of A, with A mapped to the
literal token of B and B mapped to `x` (keys covering the template and a
permutation of each other), the two iteration orders give different
outputs — the first order rescans the substituted value. -/
theorem c2_counterexample :
    render c2t c2vars1 ≠ render c2t c2vars2
    ∧ (∀ n ∈ findPlaceholders c2t, n ∈ varKeys c2vars1)
    ∧ c2vars1.Perm c2vars2 := by
  refine ⟨by decide, by decide, by decide⟩

/-- C2 amended: over templates splitting into brace-free literals and
well-formed placeholder tokens, and mappings with distinct well-formed
keys and brace-free values covering the placeholders, the substitution
output is identical for any processing order of the mapping's entries. -/
theorem c2_order_independent (segs : List Seg) (vars1 vars2 : VarMap)
    (hs : GoodSegs segs) (hv : GoodVars vars1)
    (hnd : (vars1.map Prod.fst).Nodup) (hperm : vars1.Perm vars2)
    (hcov : ∀ n ∈ findPlaceholders (flattenSegs segs), n ∈ varKeys vars1) :
    render (flattenSegs segs) vars1 = render (flattenSegs segs) vars2 := by
  have hv2 : GoodVars vars2 := fun kv hm => hv kv (hperm.mem_iff.mpr hm)
  have hkeys : ∀ n, n ∈ varKeys vars1 ↔ n ∈ varKeys vars2 :=
    fun n => (hperm.map Prod.fst).mem_iff
  have hmiss : missingVars (flattenSegs segs) vars1 =
      missingVars (flattenSegs segs) vars2 := by
    rw [missingVars, missingVars]
    apply List.filter_congr
    intro n _
    by_cases hmem : n ∈ varKeys vars1
    · have h2 := (hkeys n).mp hmem
      simp [hmem, h2]
    · have h2 : n ∉ varKeys vars2 := fun hh => hmem ((hkeys n).mpr hh)
      simp [hmem, h2]
  rw [render, render, hmiss]
  by_cases hm : missingVars (flattenSegs segs) vars2 = []
  · rw [if_pos hm, if_pos hm]
    congr 1
    rw [substitute_flattenSegs vars1 segs hv hs,
      substitute_flattenSegs vars2 segs hv2 hs]
    congr 1
    apply List.map_congr_left
    intro sg _
    cases sg with
    | lit s => rw [applyVars_lit, applyVars_lit]
    | ph n => rw [applyVars_ph, applyVars_ph, lookupVar_perm hperm hnd n]
  · rw [if_neg hm, if_neg hm]

/-- C2 witness: a concrete well-formed template and mapping rendered
equally under both iteration orders. -/
theorem c2_witness :
    render (flattenSegs c2wsegs) c2wvars1 = render (flattenSegs c2wsegs) c2wvars2 :=
  c2_order_independent c2wsegs c2wvars1 c2wvars2 (by decide) (by decide)
    (by decide) (by decide) (by decide)

/-- C4 counterexample: an engine whose cache holds the empty string does
read the underlying source again on `render` (the Python `or` treats the
empty cached string as absent), and the cached copy is replaced without
any explicit reload. -/
theorem c4_counterexample :
    engEmpty.templateContent = some []
    ∧ renderSt (some srcA) engEmpty [] ≠ renderSt (some srcB) engEmpty []
    ∧ (renderSt (some srcA) engEmpty []).1 ≠ engEmpty := by
  refine ⟨rfl, by decide, by decide⟩

/-- C4 amended: once the cache is populated with nonempty text, every
`render` call reuses it — the outcome is independent of the underlying
source and the cached copy is not replaced.  A cache holding the empty
string is the one exception: it is treated as absent and reloaded. -/
theorem c4_cache_reuse (e : Engine) (t : List Char) (vars : VarMap)
    (source source' : Option (List Char))
    (hc : e.templateContent = some t) (hne : t ≠ []) :
    renderSt source e vars = renderSt source' e vars
    ∧ (renderSt source e vars).1 = e := by
  rw [renderSt_cached source e vars t hc hne,
    renderSt_cached source' e vars t hc hne]
  exact ⟨rfl, rfl⟩

/-- C4 witness: a cached one-character template renders the same whether
the source is missing or holds different text, and the state is kept. -/
theorem c4_witness :
    renderSt none engA [] = renderSt (some srcB) engA []
    ∧ (renderSt none engA []).1 = engA :=
  c4_cache_reuse engA srcA [] none (some srcB) rfl (by decide)

/-- C10: `render` never mutates a cache populated with nonempty text,
whether the call succeeds or fails with missing variables. -/
theorem c10_render_frame (e : Engine) (t : List Char) (vars : VarMap)
    (source : Option (List Char))
    (hc : e.templateContent = some t) (hne : t ≠ []) :
    (renderSt source e vars).1 = e := by
  rw [renderSt_cached source e vars t hc hne]

/-- C10 witness: a render call that fails with missing variables leaves
the nonempty cache untouched. -/
theorem c10_witness :
    (renderSt (some srcB) engC1 []).1 = engC1 :=
  c10_render_frame engC1 c1t [] (some srcB) rfl (by decide)

def v1Lit : List Char := "v1".toList

def oopsLit : List Char := "oops".toList

/-- A parsed Pod manifest whose `spec` value is a string, not a mapping. -/
def c3entries : List (List Char × YVal) :=
  [ (fApiVersion, YVal.s v1Lit), (fKind, YVal.s podLit),
    (fMetadata, YVal.map []), (fSpec, YVal.s oopsLit) ]

/-- C3 counterexample: on a top-level mapping with all four required
fields and kind `Pod` whose `spec` value is the string `oops` (hence not
`kata`), validation does not fail with the runtime-class validation
error — it raises the uncaught attribute error instead. -/
theorem c3_counterexample :
    validate_yaml (Except.ok (YVal.map c3entries)) = Except.error VErr.attributeError
    ∧ validate_yaml (Except.ok (YVal.map c3entries)) ≠ Except.error VErr.invalidRuntime := by
  constructor
  · rfl
  · intro h
    have h0 : (Except.error VErr.attributeError : Except VErr YVal) =
        Except.error VErr.invalidRuntime := h
    exact VErr.noConfusion (Except.error.inj h0)

/-- C3 amended: with the four required fields present and kind `Pod`,
when the value of `spec` is a mapping whose `runtimeClassName` is absent
or differs from `kata`, `validate_yaml` fails with the runtime-class
validation error; when the value of `spec` is not a mapping, it fails
with the uncaught attribute error instead of a validation error. -/
theorem c3_runtime_check (entries : List (List Char × YVal))
    (h1 : (yLookup fApiVersion entries).isSome = true)
    (h3 : (yLookup fMetadata entries).isSome = true)
    (hk : yLookup fKind entries = some (YVal.s podLit)) :
    (∀ specEntries, yLookup fSpec entries = some (YVal.map specEntries) →
        isStrVal (yLookup fRuntimeClassName specEntries) kataLit = false →
        validate_yaml (Except.ok (YVal.map entries)) = Except.error VErr.invalidRuntime)
    ∧ (∀ v, yLookup fSpec entries = some v → isMapVal v = false →
        validate_yaml (Except.ok (YVal.map entries)) = Except.error VErr.attributeError) := by
  have h2 : (yLookup fKind entries).isSome = true := by rw [hk]; rfl
  have hkind : isStrVal (yLookup fKind entries) podLit = true := by
    rw [hk]
    simp [isStrVal]
  constructor
  · intro specEntries hs hrc
    have h4 : (yLookup fSpec entries).isSome = true := by rw [hs]; rfl
    show validateParsed (YVal.map entries) = _
    rw [validateParsed_map_reduce entries (find?_requiredFields entries h1 h2 h3 h4)]
    simp [hkind, hs, hrc]
  · intro v hs hmap
    have h4 : (yLookup fSpec entries).isSome = true := by rw [hs]; rfl
    show validateParsed (YVal.map entries) = _
    rw [validateParsed_map_reduce entries (find?_requiredFields entries h1 h2 h3 h4)]
    cases v with
    | map m => simp [isMapVal] at hmap
    | s w => simp [hkind, hs]
    | i w => simp [hkind, hs]
    | b w => simp [hkind, hs]
    | null => simp [hkind, hs]
    | seq w => simp [hkind, hs]

/-- A parsed Pod manifest whose `spec` mapping lacks `runtimeClassName`. -/
def c3wentries : List (List Char × YVal) :=
  [ (fApiVersion, YVal.s v1Lit), (fKind, YVal.s podLit),
    (fMetadata, YVal.map []), (fSpec, YVal.map []) ]

/-- C3 witness: a manifest whose `spec` mapping has no runtime class at
all fails with the runtime-class validation error. -/
theorem c3_witness :
    validate_yaml (Except.ok (YVal.map c3wentries)) = Except.error VErr.invalidRuntime :=
  (c3_runtime_check c3wentries rfl rfl rfl).1 [] rfl rfl

/-- C7: `validate_yaml` fails with the syntax error carrying the parser
diagnostic exactly when the parse itself failed with that diagnostic; no
later structural check can produce or mask this error kind. -/
theorem c7_syntax_gate (d : List Char) (pr : Except (List Char) YVal) :
    validate_yaml pr = Except.error (VErr.invalidSyntax d) ↔ pr = Except.error d := by
  cases pr with
  | error d' =>
    show (Except.error (VErr.invalidSyntax d') : Except VErr YVal) =
        Except.error (VErr.invalidSyntax d) ↔ _
    constructor
    · intro h
      rw [VErr.invalidSyntax.inj (Except.error.inj h)]
    · intro h
      rw [Except.error.inj h]
  | ok v =>
    constructor
    · intro h
      exact absurd h (validateParsed_ne_invalidSyntax v d)
    · intro h
      exact Except.noConfusion h

/-- C9: a parsed top-level mapping with the four required fields, kind
`Pod` and a `spec` mapping whose `runtimeClassName` is `kata` passes
validation and is returned unmodified, whatever other keys or field
contents it has. -/
theorem c9_validate_success (entries specEntries : List (List Char × YVal))
    (h1 : (yLookup fApiVersion entries).isSome = true)
    (h3 : (yLookup fMetadata entries).isSome = true)
    (hk : yLookup fKind entries = some (YVal.s podLit))
    (hs : yLookup fSpec entries = some (YVal.map specEntries))
    (hrc : yLookup fRuntimeClassName specEntries = some (YVal.s kataLit)) :
    validate_yaml (Except.ok (YVal.map entries)) = Except.ok (YVal.map entries) := by
  have h2 : (yLookup fKind entries).isSome = true := by rw [hk]; rfl
  have h4 : (yLookup fSpec entries).isSome = true := by rw [hs]; rfl
  have hkind : isStrVal (yLookup fKind entries) podLit = true := by
    rw [hk]
    simp [isStrVal]
  have hrck : isStrVal (yLookup fRuntimeClassName specEntries) kataLit = true := by
    rw [hrc]
    simp [isStrVal]
  show validateParsed (YVal.map entries) = _
  rw [validateParsed_map_reduce entries (find?_requiredFields entries h1 h2 h3 h4)]
  simp [hkind, hs, hrck]

/-- A complete valid Kata pod manifest with an extra top-level key. -/
def c9entries : List (List Char × YVal) :=
  [ (fApiVersion, YVal.s v1Lit), (fKind, YVal.s podLit),
    (fMetadata, YVal.map []),
    (fSpec, YVal.map [ (fRuntimeClassName, YVal.s kataLit) ]),
    ("extra".toList, YVal.b true) ]

/-- C9 witness: the valid manifest with an extra key is returned as is. -/
theorem c9_witness :
    validate_yaml (Except.ok (YVal.map c9entries)) = Except.ok (YVal.map c9entries) :=
  c9_validate_success c9entries [ (fRuntimeClassName, YVal.s kataLit) ]
    rfl rfl rfl rfl rfl

/-- C5: `save_rendered` writes only after render and validation both
succeed: a render failure propagates with its kind and payload intact and
touches no file; a validation failure likewise aborts the save; on
success the rendered text is written verbatim to the destination
(overwriting it, other paths untouched) and the destination is returned. -/
theorem c5_save_gating (parse : List Char → Except (List Char) YVal)
    (source : Option (List Char)) (e : Engine) (fs : FileSys)
    (vars : VarMap) (out : List Char) :
    (∀ e2 err, renderSt source e vars = (e2, Except.error err) →
        save_rendered parse source e fs vars out =
          (e2, fs, Except.error (liftRenderErr err)))
    ∧ (∀ e2 r v, renderSt source e vars = (e2, Except.ok r) →
        validate_yaml (parse r) = Except.error v →
        save_rendered parse source e fs vars out =
          (e2, fs, Except.error (SErr.validationFailed v)))
    ∧ (∀ e2 r d, renderSt source e vars = (e2, Except.ok r) →
        validate_yaml (parse r) = Except.ok d →
        save_rendered parse source e fs vars out =
          (e2, fsWrite fs out r, Except.ok out)
        ∧ fsRead (fsWrite fs out r) out = some r
        ∧ ∀ q, q ≠ out → fsRead (fsWrite fs out r) q = fsRead fs q) := by
  refine ⟨?_, ?_, ?_⟩
  · intro e2 err hre
    rw [save_rendered, hre]
    rfl
  · intro e2 r v hre hval
    rw [save_rendered, hre]
    show saveStep2 e2 fs out r (validate_yaml (parse r)) = _
    rw [hval]
    rfl
  · intro e2 r d hre hval
    refine ⟨?_, ?_, ?_⟩
    · rw [save_rendered, hre]
      show saveStep2 e2 fs out r (validate_yaml (parse r)) = _
      rw [hval]
      rfl
    · show (if (out == out) = true then some r else fsRead fs out) = some r
      simp
    · intro q hq
      show (if (out == q) = true then some r else fsRead fs q) = fsRead fs q
      rw [if_neg]
      simp
      exact fun hh => hq hh.symm

/-- A stub for the external parser: every witness input that reaches it is
irrelevant because the render stage fails first. -/
def parseStub : List Char → Except (List Char) YVal :=
  fun _ => Except.error []

def outPath : List Char := "out".toList

/-- C5 witness: with a cached template referencing key B and an empty
variable mapping, the save fails with the missing-variables error naming
B, and the file system is unchanged. -/
theorem c5_witness :
    save_rendered parseStub none engB [] [] outPath =
      (engB, ([] : FileSys), Except.error (SErr.missingVariables [ bKey ])) :=
  (c5_save_gating parseStub none engB [] [] outPath).1 engB
    (RErr.missingVariables [ bKey ]) (by decide)

def kAgentId : List Char := "AGENT_ID".toList

def kNamespace : List Char := "NAMESPACE".toList

def kImage : List Char := "IMAGE".toList

def kCpuLimit : List Char := "CPU_LIMIT".toList

def kMemoryLimit : List Char := "MEMORY_LIMIT".toList

def kEnvVars : List Char := "ENV_VARS".toList

def kVolumeMounts : List Char := "VOLUME_MOUNTS".toList

def kVolumes : List Char := "VOLUMES".toList

def zLit : List Char := "z".toList

/-- A template holding each of the eight recognized placeholders exactly
once. -/
def c6t : List Char :=
  placeholderOf kAgentId ++ placeholderOf kNamespace ++ placeholderOf kImage ++
  placeholderOf kCpuLimit ++ placeholderOf kMemoryLimit ++ placeholderOf kEnvVars ++
  placeholderOf kVolumeMounts ++ placeholderOf kVolumes

/-- A mapping supplying all eight keys, where the NAMESPACE value is the
literal token of AGENT_ID. -/
def c6vars : VarMap :=
  [ (kAgentId, zLit), (kNamespace, placeholderOf kAgentId), (kImage, []),
    (kCpuLimit, []), (kMemoryLimit, []), (kEnvVars, []),
    (kVolumeMounts, []), (kVolumes, []) ]

def c6out : List Char := zLit ++ placeholderOf kAgentId

/-- C6 counterexample: on a template holding each recognized placeholder
exactly once and a mapping supplying all of them, the render output can
still contain a literal placeholder token: the AGENT_ID token inserted by
the NAMESPACE value survives because AGENT_ID was processed earlier. -/
theorem c6_counterexample :
    findPlaceholders c6t = varKeys c6vars
    ∧ (varKeys c6vars).Nodup
    ∧ render c6t c6vars = Except.ok c6out
    ∧ findPlaceholders c6out ≠ [] := by
  refine ⟨by decide, by decide, by decide, by decide⟩

/-- C6 amended: over a template splitting into brace-free literals and
placeholder tokens, each placeholder occurring at most once, with a
mapping of brace-free values supplying every placeholder, the render
output replaces every token by the corresponding value, keeps every
literal byte for byte, and contains no placeholder token. -/
theorem c6_substitution_fidelity (segs : List Seg) (vars : VarMap)
    (hs : GoodSegs segs) (hv : GoodVars vars)
    (honce : (segs.filterMap segPhName).Nodup)
    (hcov : ∀ n ∈ segs.filterMap segPhName, n ∈ varKeys vars) :
    render (flattenSegs segs) vars =
      Except.ok (flattenSegs (segs.map (applyVars vars)))
    ∧ findPlaceholders (flattenSegs (segs.map (applyVars vars))) = []
    ∧ (∀ s, applyVars vars (Seg.lit s) = Seg.lit s)
    ∧ (∀ n v, lookupVar n vars = some v →
        applyVars vars (Seg.ph n) = Seg.lit v) := by
  have hfp : findPlaceholders (flattenSegs segs) = segs.filterMap segPhName :=
    findPlaceholders_flattenSegs segs hs
  have hmiss : missingVars (flattenSegs segs) vars = [] := by
    rw [missingVars, List.filter_eq_nil_iff]
    intro a ha
    have : a ∈ segs.filterMap segPhName := by
      rw [← hfp]
      exact List.mem_dedup.mp ha
    simp [hcov a this]
  refine ⟨?_, ?_, ?_, ?_⟩
  · rw [render, if_pos hmiss, substitute_flattenSegs vars segs hv hs]
  · apply findPlaceholders_no_lbrace
    apply no_lbrace_flattenSegs
    intro sg hsg
    rcases List.mem_map.mp hsg with ⟨sg0, h0, rfl⟩
    cases sg0 with
    | lit s =>
      exact ⟨s, by rw [applyVars_lit], ((hs _ h0) : GoodLit s).1⟩
    | ph n =>
      have hn : n ∈ segs.filterMap segPhName :=
        List.mem_filterMap.mpr ⟨Seg.ph n, h0, rfl⟩
      rcases lookupVar_isSome_of_mem n vars (hcov n hn) with ⟨v, hvv⟩
      have happ : applyVars vars (Seg.ph n) = Seg.lit v := by
        rw [applyVars_ph, hvv]
      refine ⟨v, happ, ?_⟩
      rcases lookupVar_mem n v vars hvv with h1 | ⟨kv, hm, he1, he2⟩
      · exact (hv _ h1).2.1
      · have hgl := (hv kv hm).2
        rw [he2] at hgl
        exact hgl.1
  · intro s
    exact applyVars_lit vars s
  · intro n v hvv
    rw [applyVars_ph, hvv]

/-- A well-formed segmented template with both placeholders bound. -/
def c6wsegs : List Seg :=
  [ Seg.lit ("name: ".toList), Seg.ph aKey, Seg.lit ("-".toList), Seg.ph bKey ]

def c6wvars : VarMap := [ (aKey, xVal), (bKey, yVal) ]

/-- C6 witness: the well-formed template renders to its segmentwise
substitution and no placeholder token remains in the output. -/
theorem c6_witness :
    render (flattenSegs c6wsegs) c6wvars =
      Except.ok (flattenSegs (c6wsegs.map (applyVars c6wvars)))
    ∧ findPlaceholders (flattenSegs (c6wsegs.map (applyVars c6wvars))) = [] :=
  ⟨(c6_substitution_fidelity c6wsegs c6wvars (by decide) (by decide) (by decide)
      (by decide)).1,
   (c6_substitution_fidelity c6wsegs c6wvars (by decide) (by decide) (by decide)
      (by decide)).2.1⟩

/-- C8: each formatting helper returns exactly the sentinel (a space and
the empty-list marker) on an empty mapping, and on a nonempty mapping
returns the newline-join of, per entry in iteration order, a blank line
followed by that entry's list-item block. -/
theorem c8_formatters :
    (format_env_vars [] = emptySeqLit)
    ∧ (format_volume_mounts [] = emptySeqLit)
    ∧ (format_volumes [] = emptySeqLit)
    ∧ (∀ env, env ≠ [] →
        format_env_vars env = joinLines (env.flatMap envEntryLines))
    ∧ (∀ mounts, mounts ≠ [] →
        format_volume_mounts mounts = joinLines (mounts.flatMap mountEntryLines))
    ∧ (∀ volumes, volumes ≠ [] →
        format_volumes volumes = joinLines (volumes.flatMap volEntryLines)) := by
  refine ⟨rfl, rfl, rfl, ?_, ?_, ?_⟩
  · intro env hne
    unfold format_env_vars
    rw [if_neg hne, foldl_append_eq_flatMap, List.nil_append]
  · intro mounts hne
    unfold format_volume_mounts
    rw [if_neg hne, foldl_append_eq_flatMap, List.nil_append]
  · intro volumes hne
    unfold format_volumes
    rw [if_neg hne, foldl_append_eq_flatMap, List.nil_append]

def c8env : List (List Char × List Char) := [ (aKey, xVal) ]

def c8vols : List (List Char × List (List Char × VolVal)) :=
  [ (aKey, [ (bKey, VolVal.scalar xVal) ]) ]

/-- C8 witness: the nonempty-case equations evaluated on one-entry
mappings. -/
theorem c8_witness :
    format_env_vars c8env = joinLines (c8env.flatMap envEntryLines)
    ∧ format_volume_mounts c8env = joinLines (c8env.flatMap mountEntryLines)
    ∧ format_volumes c8vols = joinLines (c8vols.flatMap volEntryLines) :=
  ⟨c8_formatters.2.2.2.1 c8env (by decide),
   c8_formatters.2.2.2.2.1 c8env (by decide),
   c8_formatters.2.2.2.2.2 c8vols (by decide)⟩

end TemplateEngine
